import Mathlib

/-! Shallow embedding of the `weekend_picker` package (candidate generation,
constraint evaluation and ranking) and proofs of its specification claims.

Dates are modelled as Python proleptic-Gregorian ordinals (`date.toordinal`),
so `0001-01-01` is day `1`, ordering of dates is `Nat` ordering, and adding a
`timedelta(days = k)` is `+ k`.
-/

namespace WeekendPicker

/-- Python weekday numbering: Monday = 0 … Sunday = 6.  Ordinal 1
(0001-01-01) is a Monday, so `weekday n = (n + 6) % 7`. -/
def weekday (n : Nat) : Nat := (n + 6) % 7

/-- Convert a Python ordinal to its proleptic-Gregorian (year, month, day),
following the standard civil-from-days conversion used by `date.fromordinal`. -/
def dateToYMD (n : Nat) : Nat × Nat × Nat :=
  let shift := n + 305
  let era := shift / 146097
  let doe := shift % 146097
  let yoe := (doe - doe / 1460 + doe / 36524 - doe / 146096) / 365
  let y0 := yoe + era * 400
  let doy := doe - (365 * yoe + yoe / 4 - yoe / 100)
  let mp := (5 * doy + 2) / 153
  let d := doy - (153 * mp + 2) / 5 + 1
  let m := if mp < 10 then mp + 3 else mp - 9
  let y := if m ≤ 2 then y0 + 1 else y0
  (y, m, d)

/-- Left-pad the decimal rendering of `n` with zeros up to `width` digits. -/
def padZeros (width : Nat) (n : Nat) : String :=
  let s := toString n
  String.mk (List.replicate (width - s.length) '0') ++ s

/-- Python `date.isoformat`: `YYYY-MM-DD` with zero padding. -/
def isoformat (n : Nat) : String :=
  let ymd := dateToYMD n
  padZeros 4 ymd.1 ++ "-" ++ padZeros 2 ymd.2.1 ++ "-" ++ padZeros 2 ymd.2.2

/-- Embedding of `models.DateConstraint`. -/
structure DateConstraint where
  kind : String
  date_value : Option Nat := none
  start_date : Option Nat := none
  end_date : Option Nat := none
deriving DecidableEq, Repr

/-- Embedding of `DateConstraint.overlaps_date`. -/
def DateConstraint.overlaps_date (c : DateConstraint) (target_date : Nat) : Bool :=
  if c.kind = "date" then
    c.date_value = some target_date
  else
    match c.start_date, c.end_date with
    | some s, some e => s ≤ target_date ∧ target_date ≤ e
    | _, _ => false

/-- Embedding of the interval branch of `DateConstraint.describe`. -/
def DateConstraint.describeInterval (c : DateConstraint) : String :=
  match c.start_date, c.end_date with
  | some s, some e => "interval:" ++ isoformat s ++ ".." ++ isoformat e
  | _, _ => "interval:invalid"

/-- Embedding of `DateConstraint.describe`. -/
def DateConstraint.describe (c : DateConstraint) : String :=
  if c.kind = "date" then
    match c.date_value with
    | some d => "date:" ++ isoformat d
    | none => c.describeInterval
  else c.describeInterval

/-- Embedding of `models.PersonConstraints`. -/
structure PersonConstraints where
  name : String
  hard_constraints : List DateConstraint
  soft_constraints : List DateConstraint
deriving DecidableEq, Repr

/-- Embedding of `models.InputData`. -/
structure InputData where
  min_date : Nat
  max_date : Nat
  people : List PersonConstraints
deriving DecidableEq, Repr

/-- Embedding of `candidates.WeekendCandidate`. -/
structure WeekendCandidate where
  start_date : Nat
  end_date : Nat
  days : Nat × Nat × Nat
deriving DecidableEq, Repr

/-- Embedding of `candidates._first_friday_on_or_after`; Python computes
`(4 - weekday) % 7` with a Python modulus, which for `weekday ∈ [0, 6]`
equals `(11 - weekday) % 7` in `Nat`. -/
def _first_friday_on_or_after (input_date : Nat) : Nat :=
  input_date + (11 - weekday input_date) % 7

/-- Embedding of the `while` loop of `generate_weekend_candidates`, iterating
from `current` upward in steps of 7 days. -/
def genFrom (min_date max_date current : Nat) : List WeekendCandidate :=
  if h : current ≤ max_date then
    if h2 : current + 2 > max_date then []
    else
      let rest := genFrom min_date max_date (current + 7)
      if min_date ≤ current then
        { start_date := current
          end_date := current + 2
          days := (current, current + 1, current + 2) } :: rest
      else rest
  else []
termination_by max_date + 1 - current
decreasing_by omega

/-- Embedding of `candidates.generate_weekend_candidates`. -/
def generate_weekend_candidates (min_date max_date : Nat) : List WeekendCandidate :=
  genFrom min_date max_date (_first_friday_on_or_after min_date)

/-- Embedding of `optimizer.PersonSoftImpact`. -/
structure PersonSoftImpact where
  person_name : String
  overlapped_dates : List Nat
  matched_constraints : List String
deriving DecidableEq, Repr

/-- Embedding of `optimizer.PersonHardImpact`. -/
structure PersonHardImpact where
  person_name : String
  overlapped_dates : List Nat
  matched_constraints : List String
deriving DecidableEq, Repr

/-- Embedding of `optimizer.WeekendEvaluation`. -/
structure WeekendEvaluation where
  weekend : WeekendCandidate
  selection_mode : String
  hard_affected_people_count : Nat
  fully_feasible_people_count : Nat
  affected_people_count : Nat
  total_soft_overlap_days : Nat
  affected_people : List PersonSoftImpact
  hard_affected_people : List PersonHardImpact
deriving DecidableEq, Repr

/-- The three days of a weekend as a list, in tuple order. -/
def weekendDayList (days : Nat × Nat × Nat) : List Nat :=
  [days.1, days.2.1, days.2.2]

/-- Embedding of `optimizer._constraint_overlaps_any_weekend_day`. -/
def _constraint_overlaps_any_weekend_day
    (constraint : DateConstraint) (weekend_days : Nat × Nat × Nat) : Bool :=
  (weekendDayList weekend_days).any (fun day => constraint.overlaps_date day)

/-- One iteration of the accumulation loop shared by
`_evaluate_person_hard_impact` and `_evaluate_person_soft_impact`: Python's
mutable `set` of overlapped dates is a `Finset Nat`, the matched descriptions
accumulate in declaration order. -/
def impactStep (weekend_days : Nat × Nat × Nat)
    (acc : Finset Nat × List String) (constraint : DateConstraint) :
    Finset Nat × List String :=
  let matched_days :=
    (weekendDayList weekend_days).filter (fun day => constraint.overlaps_date day)
  if matched_days.isEmpty then acc
  else (acc.1 ∪ matched_days.toFinset, acc.2 ++ [constraint.describe])

/-- The whole accumulation loop of the per-person impact evaluations. -/
def impactFold (weekend_days : Nat × Nat × Nat)
    (constraints : List DateConstraint) : Finset Nat × List String :=
  constraints.foldl (impactStep weekend_days) (∅, [])

/-- Embedding of `optimizer._evaluate_person_hard_impact`; Python's
`sorted(overlapped_dates)` is `Finset.sort (· ≤ ·)`. -/
def _evaluate_person_hard_impact (person : PersonConstraints)
    (weekend_days : Nat × Nat × Nat) : Option PersonHardImpact :=
  let acc := impactFold weekend_days person.hard_constraints
  if acc.1 = ∅ then none
  else some
    { person_name := person.name
      overlapped_dates := acc.1.sort (· ≤ ·)
      matched_constraints := acc.2 }

/-- Embedding of `optimizer._evaluate_person_soft_impact`. -/
def _evaluate_person_soft_impact (person : PersonConstraints)
    (weekend_days : Nat × Nat × Nat) : Option PersonSoftImpact :=
  let acc := impactFold weekend_days person.soft_constraints
  if acc.1 = ∅ then none
  else some
    { person_name := person.name
      overlapped_dates := acc.1.sort (· ≤ ·)
      matched_constraints := acc.2 }

/-- Embedding of `optimizer._evaluate_weekend_relaxed`. -/
def _evaluate_weekend_relaxed (input_data : InputData)
    (weekend : WeekendCandidate) : WeekendEvaluation :=
  let hard_affected_people :=
    input_data.people.filterMap
      (fun person => _evaluate_person_hard_impact person weekend.days)
  let affected_people :=
    input_data.people.filterMap
      (fun person => _evaluate_person_soft_impact person weekend.days)
  { weekend := weekend
    selection_mode := "fallback_hard"
    hard_affected_people_count := hard_affected_people.length
    fully_feasible_people_count := input_data.people.length - affected_people.length
    affected_people_count := affected_people.length
    total_soft_overlap_days :=
      (affected_people.map (fun impact => impact.overlapped_dates.length)).sum
    affected_people := affected_people
    hard_affected_people := hard_affected_people }

/-- Embedding of `optimizer.evaluate_weekend` (strict evaluation). -/
def evaluate_weekend (input_data : InputData)
    (weekend : WeekendCandidate) : Option WeekendEvaluation :=
  let evaluation := _evaluate_weekend_relaxed input_data weekend
  if evaluation.hard_affected_people_count > 0 then none
  else some
    { evaluation with
        selection_mode := "strict_hard"
        hard_affected_people_count := 0
        hard_affected_people := [] }

/-- Lexicographic order on 4-tuples, matching Python tuple comparison of the
sort keys. -/
def lexLE4 {α : Type} [LinearOrder α] (a b : α × Nat × Nat × Nat) : Prop :=
  a.1 < b.1 ∨ (a.1 = b.1 ∧ (a.2.1 < b.2.1 ∨ (a.2.1 = b.2.1 ∧
    (a.2.2.1 < b.2.2.1 ∨ (a.2.2.1 = b.2.2.1 ∧ a.2.2.2 ≤ b.2.2.2)))))

instance {α : Type} [LinearOrder α] (a b : α × Nat × Nat × Nat) :
    Decidable (lexLE4 a b) := by
  unfold lexLE4; infer_instance

/-- The strict-phase sort key of `rank_weekends`. -/
def strictSortKey (e : WeekendEvaluation) : Int × Nat × Nat × Nat :=
  (-(e.fully_feasible_people_count : Int), e.affected_people_count,
    e.total_soft_overlap_days, e.weekend.start_date)

/-- The fallback-phase sort key of `rank_weekends`. -/
def fallbackSortKey (e : WeekendEvaluation) : Nat × Nat × Nat × Nat :=
  (e.hard_affected_people_count, e.affected_people_count,
    e.total_soft_overlap_days, e.weekend.start_date)

/-- Embedding of `optimizer.rank_weekends`; Python's stable in-place
`list.sort(key = …)` is `List.mergeSort` with the key comparison. -/
def rank_weekends (input_data : InputData)
    (candidates : List WeekendCandidate) (top_n : Int) : List WeekendEvaluation :=
  if top_n ≤ 0 then []
  else
    let strict_evaluations :=
      candidates.filterMap (fun candidate => evaluate_weekend input_data candidate)
    let strict_sorted :=
      strict_evaluations.mergeSort
        (fun a b => decide (lexLE4 (strictSortKey a) (strictSortKey b)))
    if strict_sorted.isEmpty then
      let relaxed_evaluations :=
        candidates.map (fun candidate => _evaluate_weekend_relaxed input_data candidate)
      (relaxed_evaluations.mergeSort
        (fun a b => decide (lexLE4 (fallbackSortKey a) (fallbackSortKey b)))).take
        top_n.toNat
    else strict_sorted.take top_n.toNat

/-! ## Helper characterizations -/

/-- Weekend days covered by at least one constraint of the scanned list. -/
def coveredDaysSet (weekend_days : Nat × Nat × Nat)
    (constraints : List DateConstraint) : Finset Nat :=
  ((weekendDayList weekend_days).filter
    (fun day => constraints.any (fun c => c.overlaps_date day))).toFinset

/-- Descriptions of the constraints that cover at least one weekend day, in
declaration order. -/
def matchedDescriptions (weekend_days : Nat × Nat × Nat)
    (constraints : List DateConstraint) : List String :=
  (constraints.filter
    (fun c => _constraint_overlaps_any_weekend_day c weekend_days)).map
    DateConstraint.describe

/-- Sample person with no constraints (spec Scenario A). -/
def samplePerson : PersonConstraints :=
  { name := "a", hard_constraints := [], soft_constraints := [] }

/-- Sample input: the June 2024 window with one unconstrained person. -/
def sampleInput : InputData :=
  { min_date := 739038, max_date := 739067, people := [samplePerson] }

/-- The 2024-06-07 .. 2024-06-09 weekend. -/
def sampleWeekend : WeekendCandidate :=
  { start_date := 739044, end_date := 739046, days := (739044, 739045, 739046) }

/-- Sample person hard-blocked on the 2024-06-08 Saturday (spec Scenario B). -/
def sampleBlockedPerson : PersonConstraints :=
  { name := "b", hard_constraints := [{ kind := "date", date_value := some 739045 }],
    soft_constraints := [] }

/-- Sample input whose only weekend is hard-blocked. -/
def sampleBlockedInput : InputData :=
  { min_date := 739044, max_date := 739046, people := [sampleBlockedPerson] }

/-- The weekend candidate emitted for a given Friday ordinal. -/
def mkWeekend (current : Nat) : WeekendCandidate :=
  { start_date := current
    end_date := current + 2
    days := (current, current + 1, current + 2) }

theorem isEmpty_filter_overlaps (c : DateConstraint) (w : Nat × Nat × Nat) :
    ((weekendDayList w).filter (fun day => c.overlaps_date day)).isEmpty =
      !(_constraint_overlaps_any_weekend_day c w) := by
  rcases h : _constraint_overlaps_any_weekend_day c w
  · simp only [_constraint_overlaps_any_weekend_day, List.any_eq_false] at h
    simp only [Bool.not_false, List.isEmpty_iff, List.filter_eq_nil_iff]
    exact h
  · simp only [_constraint_overlaps_any_weekend_day, List.any_eq_true] at h
    obtain ⟨d, hd, hov⟩ := h
    simp only [Bool.not_true, List.isEmpty_eq_false_iff_exists_mem]
    exact ⟨d, List.mem_filter.mpr ⟨hd, hov⟩⟩

theorem impactStep_eq (weekend_days : Nat × Nat × Nat)
    (acc : Finset Nat × List String) (c : DateConstraint) :
    impactStep weekend_days acc c =
      if _constraint_overlaps_any_weekend_day c weekend_days then
        (acc.1 ∪ ((weekendDayList weekend_days).filter
            (fun day => c.overlaps_date day)).toFinset,
          acc.2 ++ [c.describe])
      else acc := by
  unfold impactStep
  rcases h : _constraint_overlaps_any_weekend_day c weekend_days <;>
    simp [isEmpty_filter_overlaps, h]

theorem impactFold_go (weekend_days : Nat × Nat × Nat) :
    ∀ (constraints : List DateConstraint) (acc : Finset Nat × List String),
      constraints.foldl (impactStep weekend_days) acc =
      (acc.1 ∪ coveredDaysSet weekend_days constraints,
        acc.2 ++ matchedDescriptions weekend_days constraints) := by
  intro constraints
  induction constraints with
  | nil =>
    intro acc
    simp [coveredDaysSet, matchedDescriptions]
  | cons c cs ih =>
    intro acc
    rw [List.foldl_cons, impactStep_eq]
    rcases h : _constraint_overlaps_any_weekend_day c weekend_days
    · rw [if_neg (by decide), ih]
      have hcov : coveredDaysSet weekend_days (c :: cs) = coveredDaysSet weekend_days cs := by
        simp only [_constraint_overlaps_any_weekend_day, List.any_eq_false] at h
        apply Finset.ext
        intro d
        simp only [coveredDaysSet, List.mem_toFinset, List.mem_filter, List.any_cons]
        constructor
        · rintro ⟨hd, hor⟩
          rcases Bool.or_eq_true_iff.mp hor with h1 | h1
          · exact absurd h1 (by simp [h d hd])
          · exact ⟨hd, h1⟩
        · rintro ⟨hd, hcs⟩
          exact ⟨hd, Bool.or_eq_true_iff.mpr (Or.inr hcs)⟩
      have hdesc : matchedDescriptions weekend_days (c :: cs) =
          matchedDescriptions weekend_days cs := by
        simp [matchedDescriptions, List.filter_cons, h]
      rw [hcov, hdesc]
    · rw [if_pos rfl, ih]
      have hcov : coveredDaysSet weekend_days (c :: cs) =
          ((weekendDayList weekend_days).filter
            (fun day => c.overlaps_date day)).toFinset ∪ coveredDaysSet weekend_days cs := by
        apply Finset.ext
        intro d
        simp only [coveredDaysSet, Finset.mem_union, List.mem_toFinset, List.mem_filter,
          List.any_cons]
        constructor
        · rintro ⟨hd, hor⟩
          rcases Bool.or_eq_true_iff.mp hor with h1 | h1
          · exact Or.inl ⟨hd, h1⟩
          · exact Or.inr ⟨hd, h1⟩
        · rintro (⟨hd, h1⟩ | ⟨hd, h1⟩)
          · exact ⟨hd, Bool.or_eq_true_iff.mpr (Or.inl h1)⟩
          · exact ⟨hd, Bool.or_eq_true_iff.mpr (Or.inr h1)⟩
      have hdesc : matchedDescriptions weekend_days (c :: cs) =
          c.describe :: matchedDescriptions weekend_days cs := by
        simp [matchedDescriptions, List.filter_cons, h]
      rw [hcov, hdesc, Finset.union_assoc]
      simp

theorem impactFold_eq (weekend_days : Nat × Nat × Nat)
    (constraints : List DateConstraint) :
    impactFold weekend_days constraints =
      (coveredDaysSet weekend_days constraints,
        matchedDescriptions weekend_days constraints) := by
  unfold impactFold
  rw [impactFold_go]
  simp

theorem genFrom_eq (min_date max_date current : Nat) :
    genFrom min_date max_date current =
      if current ≤ max_date then
        if current + 2 > max_date then []
        else if min_date ≤ current then
          mkWeekend current :: genFrom min_date max_date (current + 7)
        else genFrom min_date max_date (current + 7)
      else [] := by
  rw [genFrom]
  rcases le_or_lt current max_date with h | h
  · rw [dif_pos h, if_pos h]
    by_cases h2 : current + 2 > max_date
    · rw [dif_pos h2, if_pos h2]
    · rw [dif_neg h2, if_neg h2]
      rfl
  · rw [dif_neg (by omega), if_neg (by omega)]

theorem mem_genFrom (min_date max_date : Nat) :
    ∀ (current : Nat) (c : WeekendCandidate),
      c ∈ genFrom min_date max_date current ↔
        ∃ k : Nat, min_date ≤ current + 7 * k ∧ current + 7 * k + 2 ≤ max_date ∧
          c = mkWeekend (current + 7 * k) := by
  have main : ∀ (fuel current : Nat), max_date + 1 - current ≤ fuel →
      ∀ c, (c ∈ genFrom min_date max_date current ↔
        ∃ k : Nat, min_date ≤ current + 7 * k ∧ current + 7 * k + 2 ≤ max_date ∧
          c = mkWeekend (current + 7 * k)) := by
    intro fuel
    induction fuel with
    | zero =>
      intro current hfuel c
      rw [genFrom_eq, if_neg (by omega)]
      simp only [List.not_mem_nil, false_iff, not_exists]
      intro k ⟨_, h2, _⟩
      omega
    | succ n ih =>
      intro current hfuel c
      rw [genFrom_eq]
      by_cases h1 : current ≤ max_date
      · rw [if_pos h1]
        by_cases h2 : current + 2 > max_date
        · rw [if_pos h2]
          simp only [List.not_mem_nil, false_iff, not_exists]
          intro k ⟨_, hk2, _⟩
          omega
        · rw [if_neg h2]
          have hrec := ih (current + 7) (by omega) c
          by_cases h3 : min_date ≤ current
          · rw [if_pos h3]
            simp only [List.mem_cons, hrec]
            constructor
            · rintro (hc | ⟨k, hk1, hk2, hk3⟩)
              · exact ⟨0, by omega, by omega, by simpa using hc⟩
              · refine ⟨k + 1, by omega, by omega, ?_⟩
                rw [show current + 7 * (k + 1) = current + 7 + 7 * k by omega]
                exact hk3
            · rintro ⟨k, hk1, hk2, hk3⟩
              match k with
              | 0 => exact Or.inl (by simpa using hk3)
              | k + 1 =>
                refine Or.inr ⟨k, by omega, by omega, ?_⟩
                rw [show current + 7 + 7 * k = current + 7 * (k + 1) by omega]
                exact hk3
          · rw [if_neg h3]
            rw [hrec]
            constructor
            · rintro ⟨k, hk1, hk2, hk3⟩
              refine ⟨k + 1, by omega, by omega, ?_⟩
              rw [show current + 7 * (k + 1) = current + 7 + 7 * k by omega]
              exact hk3
            · rintro ⟨k, hk1, hk2, hk3⟩
              match k with
              | 0 => exact absurd hk1 (by omega)
              | k + 1 =>
                refine ⟨k, by omega, by omega, ?_⟩
                rw [show current + 7 + 7 * k = current + 7 * (k + 1) by omega]
                exact hk3
      · rw [if_neg h1]
        simp only [List.not_mem_nil, false_iff, not_exists]
        intro k ⟨_, hk2, _⟩
        omega
  intro current c
  exact main (max_date + 1 - current) current (Nat.le_refl _) c

theorem genFrom_cases (min_date max_date current : Nat) (h : min_date ≤ current) :
    genFrom min_date max_date current = [] ∨
      (current + 2 ≤ max_date ∧
        genFrom min_date max_date current =
          mkWeekend current :: genFrom min_date max_date (current + 7)) := by
  rw [genFrom_eq]
  by_cases h1 : current ≤ max_date
  · rw [if_pos h1]
    by_cases h2 : current + 2 > max_date
    · rw [if_pos h2]
      exact Or.inl rfl
    · rw [if_neg h2, if_pos h]
      exact Or.inr ⟨by omega, rfl⟩
  · rw [if_neg h1]
    exact Or.inl rfl

theorem genFrom_chain (min_date max_date : Nat) :
    ∀ current, min_date ≤ current →
      List.Chain' (fun a b => b.start_date = a.start_date + 7)
        (genFrom min_date max_date current) := by
  have main : ∀ (fuel current : Nat), max_date + 1 - current ≤ fuel →
      min_date ≤ current →
      List.Chain' (fun a b => b.start_date = a.start_date + 7)
        (genFrom min_date max_date current) := by
    intro fuel
    induction fuel with
    | zero =>
      intro current hfuel hmin
      rcases genFrom_cases min_date max_date current hmin with hg | ⟨hb, hg⟩
      · rw [hg]
        exact List.chain'_nil
      · omega
    | succ n ih =>
      intro current hfuel hmin
      rcases genFrom_cases min_date max_date current hmin with hg | ⟨hb, hg⟩
      · rw [hg]
        exact List.chain'_nil
      · rw [hg]
        refine List.chain'_cons'.mpr ⟨?_, ih (current + 7) (by omega) (by omega)⟩
        intro b hb7
        rcases genFrom_cases min_date max_date (current + 7) (by omega) with h7 | ⟨_, h7⟩
        · rw [h7] at hb7
          simp at hb7
        · rw [h7] at hb7
          simp only [List.head?_cons, Option.mem_def, Option.some_inj] at hb7
          subst hb7
          simp [mkWeekend]
  intro current hmin
  exact main (max_date + 1 - current) current (Nat.le_refl _) hmin

theorem genFrom_sorted_lt (min_date max_date : Nat) :
    ∀ current,
      List.Pairwise (fun a b => a.start_date < b.start_date)
        (genFrom min_date max_date current) := by
  have main : ∀ (fuel current : Nat), max_date + 1 - current ≤ fuel →
      List.Pairwise (fun a b => a.start_date < b.start_date)
        (genFrom min_date max_date current) := by
    intro fuel
    induction fuel with
    | zero =>
      intro current hfuel
      rw [genFrom_eq, if_neg (by omega)]
      exact List.Pairwise.nil
    | succ n ih =>
      intro current hfuel
      rw [genFrom_eq]
      by_cases h1 : current ≤ max_date
      · rw [if_pos h1]
        by_cases h2 : current + 2 > max_date
        · rw [if_pos h2]
          exact List.Pairwise.nil
        · rw [if_neg h2]
          by_cases h3 : min_date ≤ current
          · rw [if_pos h3]
            refine List.Pairwise.cons ?_ (ih (current + 7) (by omega))
            intro b hb
            rw [mem_genFrom] at hb
            obtain ⟨k, _, _, hk3⟩ := hb
            subst hk3
            simp only [mkWeekend]
            omega
          · rw [if_neg h3]
            exact ih (current + 7) (by omega)
      · rw [if_neg h1]
        exact List.Pairwise.nil
  intro current
  exact main (max_date + 1 - current) current (Nat.le_refl _)

theorem weekday_first_friday (d : Nat) :
    weekday (_first_friday_on_or_after d) = 4 := by
  unfold _first_friday_on_or_after weekday
  omega

theorem first_friday_ge (d : Nat) : d ≤ _first_friday_on_or_after d := by
  unfold _first_friday_on_or_after
  omega

theorem friday_reachable (min_date d : Nat) (hw : weekday d = 4) (hge : min_date ≤ d) :
    ∃ k, d = _first_friday_on_or_after min_date + 7 * k := by
  refine ⟨(d - _first_friday_on_or_after min_date) / 7, ?_⟩
  unfold _first_friday_on_or_after weekday at *
  omega

theorem coveredDaysSet_eq_empty_iff (w : Nat × Nat × Nat)
    (constraints : List DateConstraint) :
    coveredDaysSet w constraints = ∅ ↔
      ∀ c ∈ constraints, ∀ d ∈ weekendDayList w, c.overlaps_date d = false := by
  simp only [coveredDaysSet, List.toFinset_eq_empty_iff, List.filter_eq_nil_iff,
    List.any_eq_true, not_exists, not_and]
  constructor
  · intro h c hc d hd
    by_contra hov
    exact h d hd c hc (by simpa using hov)
  · intro h d hd c hc
    simp [h c hc d hd]

theorem mem_coveredDaysSet (w : Nat × Nat × Nat)
    (constraints : List DateConstraint) (d : Nat) :
    d ∈ coveredDaysSet w constraints ↔
      d ∈ weekendDayList w ∧ ∃ c ∈ constraints, c.overlaps_date d = true := by
  simp [coveredDaysSet, List.mem_filter, List.any_eq_true]

theorem hard_impact_eq (person : PersonConstraints) (w : Nat × Nat × Nat) :
    _evaluate_person_hard_impact person w =
      if coveredDaysSet w person.hard_constraints = ∅ then none
      else some
        { person_name := person.name
          overlapped_dates := (coveredDaysSet w person.hard_constraints).sort (· ≤ ·)
          matched_constraints := matchedDescriptions w person.hard_constraints } := by
  unfold _evaluate_person_hard_impact
  rw [impactFold_eq]

theorem soft_impact_eq (person : PersonConstraints) (w : Nat × Nat × Nat) :
    _evaluate_person_soft_impact person w =
      if coveredDaysSet w person.soft_constraints = ∅ then none
      else some
        { person_name := person.name
          overlapped_dates := (coveredDaysSet w person.soft_constraints).sort (· ≤ ·)
          matched_constraints := matchedDescriptions w person.soft_constraints } := by
  unfold _evaluate_person_soft_impact
  rw [impactFold_eq]

/-! ## Claims -/

/-- C4: per-person impact evaluation (hard or soft) returns `none` exactly
when no constraint of that severity covers any of the 3 weekend days;
otherwise the record's `overlapped_dates` is the strictly ascending
(de-duplicated) union of the weekend days covered by at least one constraint
of that severity, and `matched_constraints` lists the description of each
covering constraint exactly once, in declaration order. -/
theorem person_impact_spec (person : PersonConstraints) (w : Nat × Nat × Nat) :
    ((_evaluate_person_hard_impact person w = none ↔
        ∀ c ∈ person.hard_constraints, ∀ d ∈ weekendDayList w,
          c.overlaps_date d = false) ∧
      ∀ r, _evaluate_person_hard_impact person w = some r →
        r.overlapped_dates.Sorted (· < ·) ∧
        (∀ d, d ∈ r.overlapped_dates ↔
          d ∈ weekendDayList w ∧ ∃ c ∈ person.hard_constraints,
            c.overlaps_date d = true) ∧
        r.matched_constraints =
          (person.hard_constraints.filter
            (fun c => _constraint_overlaps_any_weekend_day c w)).map
            DateConstraint.describe) ∧
    ((_evaluate_person_soft_impact person w = none ↔
        ∀ c ∈ person.soft_constraints, ∀ d ∈ weekendDayList w,
          c.overlaps_date d = false) ∧
      ∀ r, _evaluate_person_soft_impact person w = some r →
        r.overlapped_dates.Sorted (· < ·) ∧
        (∀ d, d ∈ r.overlapped_dates ↔
          d ∈ weekendDayList w ∧ ∃ c ∈ person.soft_constraints,
            c.overlaps_date d = true) ∧
        r.matched_constraints =
          (person.soft_constraints.filter
            (fun c => _constraint_overlaps_any_weekend_day c w)).map
            DateConstraint.describe) := by
  constructor
  · rw [hard_impact_eq]
    by_cases h : coveredDaysSet w person.hard_constraints = ∅
    · simp only [if_pos h]
      refine ⟨by simp [← coveredDaysSet_eq_empty_iff, h], ?_⟩
      intro r hr
      exact absurd hr (by simp)
    · simp only [if_neg h]
      refine ⟨by simp [← coveredDaysSet_eq_empty_iff, h], ?_⟩
      intro r hr
      simp only [Option.some_inj] at hr
      subst hr
      refine ⟨?_, ?_, rfl⟩
      · show List.Sorted (· < ·)
          ((coveredDaysSet w person.hard_constraints).sort (· ≤ ·))
        exact Finset.sort_sorted_lt _
      · intro d
        show d ∈ (coveredDaysSet w person.hard_constraints).sort (· ≤ ·) ↔ _
        rw [Finset.mem_sort]
        exact mem_coveredDaysSet w person.hard_constraints d
  · rw [soft_impact_eq]
    by_cases h : coveredDaysSet w person.soft_constraints = ∅
    · simp only [if_pos h]
      refine ⟨by simp [← coveredDaysSet_eq_empty_iff, h], ?_⟩
      intro r hr
      exact absurd hr (by simp)
    · simp only [if_neg h]
      refine ⟨by simp [← coveredDaysSet_eq_empty_iff, h], ?_⟩
      intro r hr
      simp only [Option.some_inj] at hr
      subst hr
      refine ⟨?_, ?_, rfl⟩
      · show List.Sorted (· < ·)
          ((coveredDaysSet w person.soft_constraints).sort (· ≤ ·))
        exact Finset.sort_sorted_lt _
      · intro d
        show d ∈ (coveredDaysSet w person.soft_constraints).sort (· ≤ ·) ↔ _
        rw [Finset.mem_sort]
        exact mem_coveredDaysSet w person.soft_constraints d

/-- Witness for C4: spec Scenario C — a soft interval constraint
`2024-06-07..2024-06-08` against the weekend `2024-06-07..2024-06-09` yields a
record with ascending overlapped dates and the matched description list. -/
theorem person_impact_spec_witness :
    ∀ r, _evaluate_person_soft_impact
        { name := "c", hard_constraints := [],
          soft_constraints :=
            [{ kind := "interval", start_date := some 739044, end_date := some 739045 }] }
        (739044, 739045, 739046) = some r →
      r.overlapped_dates.Sorted (· < ·) ∧
      (∀ d, d ∈ r.overlapped_dates ↔
        d ∈ weekendDayList (739044, 739045, 739046) ∧
        ∃ c ∈ [({ kind := "interval", start_date := some 739044,
                  end_date := some 739045 } : DateConstraint)],
          c.overlaps_date d = true) ∧
      r.matched_constraints =
        (([({ kind := "interval", start_date := some 739044,
              end_date := some 739045 } : DateConstraint)]).filter
          (fun c => _constraint_overlaps_any_weekend_day c (739044, 739045, 739046))).map
          DateConstraint.describe :=
  (person_impact_spec
    { name := "c", hard_constraints := [],
      soft_constraints :=
        [{ kind := "interval", start_date := some 739044, end_date := some 739045 }] }
    (739044, 739045, 739046)).2.2

/-- C10: `overlaps_date` is total and never raises: a constraint of a kind
other than `"date"` (in particular an interval-kind constraint) with an absent
`start_date` or `end_date` covers no date, and a date-kind constraint covers a
date exactly when `date_value` equals it, so malformed constraint records
silently match nothing. -/
theorem overlaps_date_total_spec (c : DateConstraint) (t : Nat) :
    (c.kind = "date" → (c.overlaps_date t = true ↔ c.date_value = some t)) ∧
    (c.kind ≠ "date" → c.start_date = none ∨ c.end_date = none →
      c.overlaps_date t = false) := by
  constructor
  · intro hk
    simp [DateConstraint.overlaps_date, hk]
  · intro hk habs
    simp only [DateConstraint.overlaps_date, if_neg hk]
    rcases habs with h | h
    · rw [h]
    · rw [h]; rcases hs : c.start_date <;> simp_all

/-- Witness for C10 at concrete inputs: an interval constraint missing its
start covers nothing, and a date constraint covers exactly its date. -/
theorem overlaps_date_total_spec_witness :
    DateConstraint.overlaps_date
      { kind := "interval", start_date := none, end_date := some 739045 } 739044 = false ∧
    (DateConstraint.overlaps_date { kind := "date", date_value := some 739044 } 739044 = true ↔
      (some 739044 : Option Nat) = some 739044) :=
  ⟨(overlaps_date_total_spec
      { kind := "interval", start_date := none, end_date := some 739045 } 739044).2
      (by decide) (Or.inl rfl),
    (overlaps_date_total_spec { kind := "date", date_value := some 739044 } 739044).1 rfl⟩

/-- C9: the human-readable description of a well-formed constraint follows the
stable micro-format: `date:` + ISO date for single-date constraints,
`interval:` + ISO start + `..` + ISO end for interval constraints. -/
theorem describe_format_spec (c : DateConstraint) :
    (∀ d, c.kind = "date" → c.date_value = some d →
      c.describe = "date:" ++ isoformat d) ∧
    (∀ s e, c.kind = "interval" → c.start_date = some s → c.end_date = some e →
      c.describe = "interval:" ++ isoformat s ++ ".." ++ isoformat e) := by
  constructor
  · intro d hk hv
    simp [DateConstraint.describe, hk, hv]
  · intro s e hk hs he
    have hne : ¬ c.kind = "date" := by rw [hk]; decide
    simp [DateConstraint.describe, DateConstraint.describeInterval, hne, hs, he]

/-- Witness for C9 at concrete constraints (dates of June 2024). -/
theorem describe_format_spec_witness :
    DateConstraint.describe { kind := "date", date_value := some 739044 } =
      "date:" ++ isoformat 739044 ∧
    DateConstraint.describe
      { kind := "interval", start_date := some 739044, end_date := some 739045 } =
      "interval:" ++ isoformat 739044 ++ ".." ++ isoformat 739045 :=
  ⟨(describe_format_spec { kind := "date", date_value := some 739044 }).1 739044 rfl rfl,
    (describe_format_spec
      { kind := "interval", start_date := some 739044, end_date := some 739045 }).2
      739044 739045 rfl rfl rfl⟩

/-- C3: strict evaluation returns `none` exactly when the relaxed evaluation
has a positive `hard_affected_people_count`; otherwise the result is the
relaxed evaluation with `selection_mode = "strict_hard"`,
`hard_affected_people_count = 0` and an empty `hard_affected_people` list,
all other fields unchanged. -/
theorem evaluate_weekend_strict_spec (input_data : InputData) (weekend : WeekendCandidate) :
    (evaluate_weekend input_data weekend = none ↔
      0 < (_evaluate_weekend_relaxed input_data weekend).hard_affected_people_count) ∧
    (∀ e, evaluate_weekend input_data weekend = some e →
      e.selection_mode = "strict_hard" ∧
      e.hard_affected_people_count = 0 ∧
      e.hard_affected_people = [] ∧
      e.weekend = (_evaluate_weekend_relaxed input_data weekend).weekend ∧
      e.fully_feasible_people_count =
        (_evaluate_weekend_relaxed input_data weekend).fully_feasible_people_count ∧
      e.affected_people_count =
        (_evaluate_weekend_relaxed input_data weekend).affected_people_count ∧
      e.total_soft_overlap_days =
        (_evaluate_weekend_relaxed input_data weekend).total_soft_overlap_days ∧
      e.affected_people =
        (_evaluate_weekend_relaxed input_data weekend).affected_people) := by
  unfold evaluate_weekend
  by_cases h : 0 < (_evaluate_weekend_relaxed input_data weekend).hard_affected_people_count
  · simp [h]
  · simp only [if_neg h]
    refine ⟨by simp [h], ?_⟩
    intro e he
    simp only [Option.some_inj] at he
    subst he
    simp

/-- Witness for C3: a one-person, no-constraint input on the June 2024 weekend
produces a strict evaluation with the stated fields. -/
theorem evaluate_weekend_strict_spec_witness :
    ∀ e, evaluate_weekend
        { min_date := 739038, max_date := 739067,
          people := [{ name := "a", hard_constraints := [], soft_constraints := [] }] }
        { start_date := 739044, end_date := 739046, days := (739044, 739045, 739046) } =
        some e →
      e.selection_mode = "strict_hard" ∧
      e.hard_affected_people_count = 0 ∧
      e.hard_affected_people = [] ∧
      e.weekend = (_evaluate_weekend_relaxed
        { min_date := 739038, max_date := 739067,
          people := [{ name := "a", hard_constraints := [], soft_constraints := [] }] }
        { start_date := 739044, end_date := 739046,
          days := (739044, 739045, 739046) }).weekend ∧
      e.fully_feasible_people_count = (_evaluate_weekend_relaxed
        { min_date := 739038, max_date := 739067,
          people := [{ name := "a", hard_constraints := [], soft_constraints := [] }] }
        { start_date := 739044, end_date := 739046,
          days := (739044, 739045, 739046) }).fully_feasible_people_count ∧
      e.affected_people_count = (_evaluate_weekend_relaxed
        { min_date := 739038, max_date := 739067,
          people := [{ name := "a", hard_constraints := [], soft_constraints := [] }] }
        { start_date := 739044, end_date := 739046,
          days := (739044, 739045, 739046) }).affected_people_count ∧
      e.total_soft_overlap_days = (_evaluate_weekend_relaxed
        { min_date := 739038, max_date := 739067,
          people := [{ name := "a", hard_constraints := [], soft_constraints := [] }] }
        { start_date := 739044, end_date := 739046,
          days := (739044, 739045, 739046) }).total_soft_overlap_days ∧
      e.affected_people = (_evaluate_weekend_relaxed
        { min_date := 739038, max_date := 739067,
          people := [{ name := "a", hard_constraints := [], soft_constraints := [] }] }
        { start_date := 739044, end_date := 739046,
          days := (739044, 739045, 739046) }).affected_people :=
  (evaluate_weekend_strict_spec
    { min_date := 739038, max_date := 739067,
      people := [{ name := "a", hard_constraints := [], soft_constraints := [] }] }
    { start_date := 739044, end_date := 739046, days := (739044, 739045, 739046) }).2

/-- C8: `rank_weekends` returns an empty list (and never fails) whenever
`top_n ≤ 0`, regardless of candidates and people, and whenever the candidate
list is empty. -/
theorem rank_weekends_degenerate_spec (input_data : InputData)
    (candidates : List WeekendCandidate) (top_n : Int) :
    (top_n ≤ 0 → rank_weekends input_data candidates top_n = []) ∧
    rank_weekends input_data [] top_n = [] := by
  constructor
  · intro h
    simp [rank_weekends, h]
  · by_cases h : top_n ≤ 0
    · simp [rank_weekends, h]
    · simp [rank_weekends, h]

/-- Witness for C8 at a concrete nonpositive `top_n` and nonempty candidates. -/
theorem rank_weekends_degenerate_spec_witness :
    rank_weekends
      { min_date := 739038, max_date := 739067,
        people := [{ name := "a", hard_constraints := [], soft_constraints := [] }] }
      [{ start_date := 739044, end_date := 739046, days := (739044, 739045, 739046) }]
      (-1) = [] :=
  (rank_weekends_degenerate_spec
    { min_date := 739038, max_date := 739067,
      people := [{ name := "a", hard_constraints := [], soft_constraints := [] }] }
    [{ start_date := 739044, end_date := 739046, days := (739044, 739045, 739046) }]
    (-1)).1 (by decide)


theorem relaxed_selection_mode (input_data : InputData) (w : WeekendCandidate) :
    (_evaluate_weekend_relaxed input_data w).selection_mode = "fallback_hard" := rfl

theorem evaluate_weekend_mode (input_data : InputData) (w : WeekendCandidate)
    (e : WeekendEvaluation) (he : evaluate_weekend input_data w = some e) :
    e.selection_mode = "strict_hard" := by
  unfold evaluate_weekend at he
  by_cases h : (_evaluate_weekend_relaxed input_data w).hard_affected_people_count > 0
  · rw [if_pos h] at he
    exact absurd he (by simp)
  · rw [if_neg h] at he
    simp only [Option.some_inj] at he
    subst he
    rfl

theorem evaluate_weekend_some_of_zero (input_data : InputData) (w : WeekendCandidate)
    (h : (_evaluate_weekend_relaxed input_data w).hard_affected_people_count = 0) :
    evaluate_weekend input_data w ≠ none := by
  unfold evaluate_weekend
  rw [if_neg (by omega)]
  simp

theorem evaluate_weekend_none_of_pos (input_data : InputData) (w : WeekendCandidate)
    (h : (_evaluate_weekend_relaxed input_data w).hard_affected_people_count ≠ 0) :
    evaluate_weekend input_data w = none := by
  unfold evaluate_weekend
  rw [if_pos (by omega)]

theorem lexLE4_int_trans (a b c : Int × Nat × Nat × Nat)
    (hab : lexLE4 a b) (hbc : lexLE4 b c) : lexLE4 a c := by
  obtain ⟨a1, a2, a3, a4⟩ := a
  obtain ⟨b1, b2, b3, b4⟩ := b
  obtain ⟨c1, c2, c3, c4⟩ := c
  unfold lexLE4 at *
  dsimp only at *
  omega

theorem lexLE4_int_total (a b : Int × Nat × Nat × Nat) :
    lexLE4 a b ∨ lexLE4 b a := by
  obtain ⟨a1, a2, a3, a4⟩ := a
  obtain ⟨b1, b2, b3, b4⟩ := b
  unfold lexLE4
  dsimp only
  omega

theorem lexLE4_nat_trans (a b c : Nat × Nat × Nat × Nat)
    (hab : lexLE4 a b) (hbc : lexLE4 b c) : lexLE4 a c := by
  obtain ⟨a1, a2, a3, a4⟩ := a
  obtain ⟨b1, b2, b3, b4⟩ := b
  obtain ⟨c1, c2, c3, c4⟩ := c
  unfold lexLE4 at *
  dsimp only at *
  omega

theorem lexLE4_nat_total (a b : Nat × Nat × Nat × Nat) :
    lexLE4 a b ∨ lexLE4 b a := by
  obtain ⟨a1, a2, a3, a4⟩ := a
  obtain ⟨b1, b2, b3, b4⟩ := b
  unfold lexLE4
  dsimp only
  omega

theorem rank_weekends_nonpos (input_data : InputData)
    (candidates : List WeekendCandidate) (top_n : Int) (hn : top_n ≤ 0) :
    rank_weekends input_data candidates top_n = [] := by
  unfold rank_weekends
  rw [if_pos hn]

theorem rank_weekends_eq_strict (input_data : InputData)
    (candidates : List WeekendCandidate) (top_n : Int)
    (hne : candidates.filterMap (fun c => evaluate_weekend input_data c) ≠ [])
    (hn : ¬ top_n ≤ 0) :
    rank_weekends input_data candidates top_n =
      ((candidates.filterMap (fun c => evaluate_weekend input_data c)).mergeSort
        (fun a b => decide (lexLE4 (strictSortKey a) (strictSortKey b)))).take
        top_n.toNat := by
  unfold rank_weekends
  rw [if_neg hn]
  have hlen : ((candidates.filterMap (fun c => evaluate_weekend input_data c)).mergeSort
      (fun a b => decide (lexLE4 (strictSortKey a) (strictSortKey b)))).isEmpty = false := by
    rcases hm : (candidates.filterMap (fun c => evaluate_weekend input_data c)).mergeSort
        (fun a b => decide (lexLE4 (strictSortKey a) (strictSortKey b))) with _ | ⟨a, l⟩
    · exfalso
      apply hne
      have hc := congrArg List.length hm
      rw [List.length_mergeSort, List.length_nil] at hc
      exact List.length_eq_zero.mp hc
    · rfl
  simp only [hlen, Bool.false_eq_true, if_false]

theorem rank_weekends_eq_fallback (input_data : InputData)
    (candidates : List WeekendCandidate) (top_n : Int)
    (hempty : candidates.filterMap (fun c => evaluate_weekend input_data c) = [])
    (hn : ¬ top_n ≤ 0) :
    rank_weekends input_data candidates top_n =
      ((candidates.map (fun c => _evaluate_weekend_relaxed input_data c)).mergeSort
        (fun a b => decide (lexLE4 (fallbackSortKey a) (fallbackSortKey b)))).take
        top_n.toNat := by
  unfold rank_weekends
  rw [if_neg hn]
  simp only [hempty, List.mergeSort_nil, List.isEmpty_nil, if_true]

/-- C5: for a window with `min_date ≤ max_date`, every generated candidate is
a Friday-to-Sunday span fully inside the window, and conversely every Friday
in the window whose Sunday is also in the window yields a candidate. -/
theorem generate_weekend_candidates_spec (min_date max_date : Nat)
    (_hwin : min_date ≤ max_date) :
    (∀ c ∈ generate_weekend_candidates min_date max_date,
      weekday c.start_date = 4 ∧ c.end_date = c.start_date + 2 ∧
      min_date ≤ c.start_date ∧ c.end_date ≤ max_date) ∧
    (∀ d, weekday d = 4 → min_date ≤ d → d + 2 ≤ max_date →
      ∃ c ∈ generate_weekend_candidates min_date max_date, c.start_date = d) := by
  constructor
  · intro c hc
    rw [generate_weekend_candidates, mem_genFrom] at hc
    obtain ⟨k, hk1, hk2, hk3⟩ := hc
    subst hk3
    refine ⟨?_, rfl, hk1, hk2⟩
    show weekday (_first_friday_on_or_after min_date + 7 * k) = 4
    unfold _first_friday_on_or_after weekday
    omega
  · intro d hw hmin hmax
    obtain ⟨k, hk⟩ := friday_reachable min_date d hw hmin
    refine ⟨mkWeekend d, ?_, rfl⟩
    rw [generate_weekend_candidates, mem_genFrom]
    exact ⟨k, by omega, by omega, by rw [hk]⟩

/-- Witness for C5: the June 2024 window contains the 2024-06-07 Friday, and
its generated candidates satisfy the span conditions. -/
theorem generate_weekend_candidates_spec_witness :
    (∀ c ∈ generate_weekend_candidates 739038 739067,
      weekday c.start_date = 4 ∧ c.end_date = c.start_date + 2 ∧
      739038 ≤ c.start_date ∧ c.end_date ≤ 739067) ∧
    ∃ c ∈ generate_weekend_candidates 739038 739067, c.start_date = 739044 :=
  ⟨(generate_weekend_candidates_spec 739038 739067 (by decide)).1,
    (generate_weekend_candidates_spec 739038 739067 (by decide)).2
      739044 (by decide) (by decide) (by decide)⟩

/-- C6: for a window with `min_date ≤ max_date`, the generated sequence is
strictly ascending by `start_date` with consecutive candidates exactly 7 days
apart, and contains no duplicates. -/
theorem generate_weekend_candidates_step_spec (min_date max_date : Nat)
    (_hwin : min_date ≤ max_date) :
    List.Chain' (fun a b => b.start_date = a.start_date + 7)
      (generate_weekend_candidates min_date max_date) ∧
    List.Pairwise (fun a b => a.start_date < b.start_date)
      (generate_weekend_candidates min_date max_date) ∧
    (generate_weekend_candidates min_date max_date).Nodup := by
  refine ⟨genFrom_chain min_date max_date _ (first_friday_ge min_date),
    genFrom_sorted_lt min_date max_date _, ?_⟩
  refine List.Pairwise.imp ?_ (genFrom_sorted_lt min_date max_date _)
  intro a b hlt heq
  subst heq
  exact lt_irrefl _ hlt

/-- Witness for C6 at the June 2024 window. -/
theorem generate_weekend_candidates_step_spec_witness :
    List.Chain' (fun a b => b.start_date = a.start_date + 7)
      (generate_weekend_candidates 739038 739067) ∧
    List.Pairwise (fun a b => a.start_date < b.start_date)
      (generate_weekend_candidates 739038 739067) ∧
    (generate_weekend_candidates 739038 739067).Nodup :=
  generate_weekend_candidates_step_spec 739038 739067 (by decide)

/-- C1: when at least one candidate passes strict evaluation, `rank_weekends`
sorts the passing evaluations ascending by the key
`(-fully_feasible_people_count, affected_people_count, total_soft_overlap_days,
weekend.start_date)` and returns the first `top_n` entries; in particular, of
two returned evaluations with identical first three components, the one with
the earlier `start_date` comes first. -/
theorem rank_weekends_strict_phase_spec (input_data : InputData)
    (candidates : List WeekendCandidate) (top_n : Int)
    (hpass : candidates.filterMap (fun c => evaluate_weekend input_data c) ≠ []) :
    ∃ L : List WeekendEvaluation,
      L.Perm (candidates.filterMap (fun c => evaluate_weekend input_data c)) ∧
      L.Pairwise (fun a b => lexLE4 (strictSortKey a) (strictSortKey b)) ∧
      rank_weekends input_data candidates top_n = L.take top_n.toNat ∧
      (∀ a b, List.Sublist [a, b] (rank_weekends input_data candidates top_n) →
        a.fully_feasible_people_count = b.fully_feasible_people_count →
        a.affected_people_count = b.affected_people_count →
        a.total_soft_overlap_days = b.total_soft_overlap_days →
        a.weekend.start_date ≤ b.weekend.start_date) := by
  have hperm := List.mergeSort_perm
    (candidates.filterMap (fun c => evaluate_weekend input_data c))
    (fun a b => decide (lexLE4 (strictSortKey a) (strictSortKey b)))
  have hsorted : ((candidates.filterMap (fun c => evaluate_weekend input_data c)).mergeSort
      (fun a b => decide (lexLE4 (strictSortKey a) (strictSortKey b)))).Pairwise
      (fun a b => lexLE4 (strictSortKey a) (strictSortKey b)) := by
    have hs := @List.sorted_mergeSort _
      (fun a b => decide (lexLE4 (strictSortKey a) (strictSortKey b)))
      (fun a b c hab hbc => decide_eq_true
        (lexLE4_int_trans _ _ _ (of_decide_eq_true hab) (of_decide_eq_true hbc)))
      (fun a b => by
        rcases lexLE4_int_total (strictSortKey a) (strictSortKey b) with h | h <;>
          simp [h])
      (candidates.filterMap (fun c => evaluate_weekend input_data c))
    exact hs.imp (fun h => of_decide_eq_true h)
  have heq : rank_weekends input_data candidates top_n =
      ((candidates.filterMap (fun c => evaluate_weekend input_data c)).mergeSort
        (fun a b => decide (lexLE4 (strictSortKey a) (strictSortKey b)))).take
        top_n.toNat := by
    by_cases hn : top_n ≤ 0
    · rw [rank_weekends_nonpos input_data candidates top_n hn,
        Int.toNat_of_nonpos hn, List.take_zero]
    · exact rank_weekends_eq_strict input_data candidates top_n hpass hn
  refine ⟨_, hperm, hsorted, heq, ?_⟩
  intro a b hsub h1 h2 h3
  rw [heq] at hsub
  have hLsub := hsub.trans (List.take_sublist _ _)
  have hpair := List.Pairwise.sublist hLsub hsorted
  have hrel : lexLE4 (strictSortKey a) (strictSortKey b) :=
    (List.pairwise_cons.mp hpair).1 b (List.mem_singleton.mpr rfl)
  unfold lexLE4 strictSortKey at hrel
  dsimp only at hrel
  omega

/-- Witness for C1: the single June 2024 weekend with an unconstrained person
passes strict evaluation. -/
theorem rank_weekends_strict_phase_spec_witness :
    ∃ L : List WeekendEvaluation,
      L.Perm ([sampleWeekend].filterMap (fun c => evaluate_weekend sampleInput c)) ∧
      L.Pairwise (fun a b => lexLE4 (strictSortKey a) (strictSortKey b)) ∧
      rank_weekends sampleInput [sampleWeekend] 3 = L.take (3 : Int).toNat ∧
      (∀ a b, List.Sublist [a, b] (rank_weekends sampleInput [sampleWeekend] 3) →
        a.fully_feasible_people_count = b.fully_feasible_people_count →
        a.affected_people_count = b.affected_people_count →
        a.total_soft_overlap_days = b.total_soft_overlap_days →
        a.weekend.start_date ≤ b.weekend.start_date) :=
  rank_weekends_strict_phase_spec sampleInput [sampleWeekend] 3 (by decide)

/-- C2: when no candidate passes strict evaluation and `top_n > 0`,
`rank_weekends` returns the first `top_n` relaxed evaluations of every
candidate sorted ascending by `(hard_affected_people_count,
affected_people_count, total_soft_overlap_days, weekend.start_date)`, each
tagged `fallback_hard`. -/
theorem rank_weekends_fallback_phase_spec (input_data : InputData)
    (candidates : List WeekendCandidate) (top_n : Int)
    (hfail : ∀ c ∈ candidates, evaluate_weekend input_data c = none)
    (hn : 0 < top_n) :
    ∃ L : List WeekendEvaluation,
      L.Perm (candidates.map (fun c => _evaluate_weekend_relaxed input_data c)) ∧
      L.Pairwise (fun a b => lexLE4 (fallbackSortKey a) (fallbackSortKey b)) ∧
      rank_weekends input_data candidates top_n = L.take top_n.toNat ∧
      (∀ e ∈ rank_weekends input_data candidates top_n,
        e.selection_mode = "fallback_hard") := by
  have hempty : candidates.filterMap (fun c => evaluate_weekend input_data c) = [] :=
    List.filterMap_eq_nil_iff.mpr hfail
  have heq := rank_weekends_eq_fallback input_data candidates top_n hempty (by omega)
  have hperm := List.mergeSort_perm
    (candidates.map (fun c => _evaluate_weekend_relaxed input_data c))
    (fun a b => decide (lexLE4 (fallbackSortKey a) (fallbackSortKey b)))
  have hsorted : ((candidates.map (fun c => _evaluate_weekend_relaxed input_data c)).mergeSort
      (fun a b => decide (lexLE4 (fallbackSortKey a) (fallbackSortKey b)))).Pairwise
      (fun a b => lexLE4 (fallbackSortKey a) (fallbackSortKey b)) := by
    have hs := @List.sorted_mergeSort _
      (fun a b => decide (lexLE4 (fallbackSortKey a) (fallbackSortKey b)))
      (fun a b c hab hbc => decide_eq_true
        (lexLE4_nat_trans _ _ _ (of_decide_eq_true hab) (of_decide_eq_true hbc)))
      (fun a b => by
        rcases lexLE4_nat_total (fallbackSortKey a) (fallbackSortKey b) with h | h <;>
          simp [h])
      (candidates.map (fun c => _evaluate_weekend_relaxed input_data c))
    exact hs.imp (fun h => of_decide_eq_true h)
  refine ⟨_, hperm, hsorted, heq, ?_⟩
  intro e he
  rw [heq] at he
  have hmem := List.mem_mergeSort.mp (List.mem_of_mem_take he)
  obtain ⟨c, _, rfl⟩ := List.mem_map.mp hmem
  rfl

/-- Witness for C2: spec Scenario B — the only weekend is hard-blocked, so the
fallback branch returns it tagged `fallback_hard`. -/
theorem rank_weekends_fallback_phase_spec_witness :
    ∃ L : List WeekendEvaluation,
      L.Perm ([sampleWeekend].map (fun c => _evaluate_weekend_relaxed sampleBlockedInput c)) ∧
      L.Pairwise (fun a b => lexLE4 (fallbackSortKey a) (fallbackSortKey b)) ∧
      rank_weekends sampleBlockedInput [sampleWeekend] 3 = L.take (3 : Int).toNat ∧
      (∀ e ∈ rank_weekends sampleBlockedInput [sampleWeekend] 3,
        e.selection_mode = "fallback_hard") :=
  rank_weekends_fallback_phase_spec sampleBlockedInput [sampleWeekend] 3
    (by decide) (by decide)

/-- C7: the result of `rank_weekends` never mixes selection modes: if some
candidate has zero hard-affected people every returned evaluation is tagged
`strict_hard` (and when `top_n > 0` at least one result is returned), and
otherwise every returned evaluation is tagged `fallback_hard`. -/
theorem rank_weekends_mode_spec (input_data : InputData)
    (candidates : List WeekendCandidate) (top_n : Int) :
    ((∃ c ∈ candidates,
        (_evaluate_weekend_relaxed input_data c).hard_affected_people_count = 0) →
      (∀ e ∈ rank_weekends input_data candidates top_n,
        e.selection_mode = "strict_hard") ∧
      (0 < top_n → rank_weekends input_data candidates top_n ≠ [])) ∧
    ((∀ c ∈ candidates,
        (_evaluate_weekend_relaxed input_data c).hard_affected_people_count ≠ 0) →
      ∀ e ∈ rank_weekends input_data candidates top_n,
        e.selection_mode = "fallback_hard") := by
  constructor
  · rintro ⟨c, hc, hzero⟩
    obtain ⟨e0, he0⟩ := Option.ne_none_iff_exists'.mp
      (evaluate_weekend_some_of_zero input_data c hzero)
    have hne : candidates.filterMap (fun c => evaluate_weekend input_data c) ≠ [] := by
      intro hnil
      have hmem : e0 ∈ candidates.filterMap (fun c => evaluate_weekend input_data c) :=
        List.mem_filterMap.mpr ⟨c, hc, he0⟩
      rw [hnil] at hmem
      exact absurd hmem (List.not_mem_nil _)
    constructor
    · intro e he
      by_cases hn : top_n ≤ 0
      · rw [rank_weekends_nonpos input_data candidates top_n hn] at he
        exact absurd he (List.not_mem_nil _)
      · rw [rank_weekends_eq_strict input_data candidates top_n hne hn] at he
        have hmem := List.mem_mergeSort.mp (List.mem_of_mem_take he)
        obtain ⟨c2, _, hc2⟩ := List.mem_filterMap.mp hmem
        exact evaluate_weekend_mode input_data c2 e hc2
    · intro hn htake
      rw [rank_weekends_eq_strict input_data candidates top_n hne (by omega)] at htake
      have hlen := congrArg List.length htake
      rw [List.length_take, List.length_mergeSort, List.length_nil] at hlen
      have hpos := List.length_pos.mpr hne
      omega
  · intro hall e he
    have hempty : candidates.filterMap (fun c => evaluate_weekend input_data c) = [] :=
      List.filterMap_eq_nil_iff.mpr
        (fun c hc => evaluate_weekend_none_of_pos input_data c (hall c hc))
    by_cases hn : top_n ≤ 0
    · rw [rank_weekends_nonpos input_data candidates top_n hn] at he
      exact absurd he (List.not_mem_nil _)
    · rw [rank_weekends_eq_fallback input_data candidates top_n hempty hn] at he
      have hmem := List.mem_mergeSort.mp (List.mem_of_mem_take he)
      obtain ⟨c2, _, rfl⟩ := List.mem_map.mp hmem
      rfl

/-- Witness for C7: with the unconstrained June 2024 input the strict branch
applies and returns a nonempty all-strict result. -/
theorem rank_weekends_mode_spec_witness :
    (∀ e ∈ rank_weekends sampleInput [sampleWeekend] 3,
      e.selection_mode = "strict_hard") ∧
    (0 < (3 : Int) → rank_weekends sampleInput [sampleWeekend] 3 ≠ []) :=
  (rank_weekends_mode_spec sampleInput [sampleWeekend] 3).1
    ⟨sampleWeekend, by decide, by decide⟩

end WeekendPicker
